import Mathlib

/-!
# Verification of the `argon2-browser` wrapper (`dist/argon2.js`)

This development is a shallow embedding of the JavaScript wrapper in
`dist/argon2.js` together with a model of the compiled Argon2 core
(`argon2-asm.min.js`) that the wrapper drives.  The wrapper itself —
parameter defaulting, buffer allocation/free discipline, hex encoding of
the digest, variant inference from the encoded string, and the shaping of
success and error results — is translated directly from the source.  The
compiled core is not part of the visible sources; where its behaviour
decides a property it is modelled from the specification (each such
definition carries a doc comment starting `Modelled from the spec:`).

Conventions:
* JavaScript strings handed to the core as byte buffers are modelled as
  `List Nat` of byte values (the `Uint8Array` path of `allocateArray`);
  `String` is kept for the encoded-hash text the wrapper manipulates.
* JavaScript `undefined` is modelled as `Option.none`.
* Thrown JavaScript exception values are modelled by their message and are
  treated as truthy (Emscripten throws `Error` objects or non-empty
  strings, which are truthy).
-/

/-! ## JavaScript string primitives used by the wrapper

`String.prototype.split('$')` and `String.prototype.replace('a', 'A')`
(first occurrence only), modelled on `List Char`. -/

/-- JS `s.split(sep)` for a one-character separator: splits into the list
of (possibly empty) groups between separator occurrences. -/
def splitOnAux (sep : Char) : List Char → List (List Char)
  | [] => [[]]
  | c :: rest =>
    let r := splitOnAux sep rest
    if c = sep then [] :: r
    else (c :: r.headD []) :: r.tail

/-- JS `s.replace(pat, rep)` with one-character pattern and replacement:
replaces only the first occurrence. -/
def jsReplaceFirst (pat rep : Char) : List Char → List Char
  | [] => []
  | c :: rest => if c = pat then rep :: rest else c :: jsReplaceFirst pat rep rest

/-- Position of a character in a list, if present. -/
def charIndex (c : Char) : List Char → Option Nat
  | [] => none
  | d :: rest => if d = c then some 0 else (charIndex c rest).map Nat.succ

/-! ## Base64 (standard alphabet, no padding)

Modelled from the spec: §3 — salt and digest fields of the encoded string
are "base64-encoded without padding".  The base64 codec itself lives in
the compiled core's encoding layer, absent from `src/`; this is the
standard RFC 4648 alphabet, unpadded, with strict zero trailing bits. -/

def b64Alphabet : List Char :=
  "ABCDEFGHIJKLMNOPQRSTUVWXYZabcdefghijklmnopqrstuvwxyz0123456789+/".data

/-- The base64 character for a 6-bit value. -/
def b64Char (n : Nat) : Char := b64Alphabet.getD (n % 64) 'A'

/-- The 6-bit value of a base64 character, if it is in the alphabet. -/
def b64Value (c : Char) : Option Nat := charIndex c b64Alphabet

/-- Base64-encode a byte list (values taken mod 256), without padding. -/
def b64EncodeBytes : List Nat → List Char
  | [] => []
  | [b0] => [b64Char (b0 % 256 / 4), b64Char (b0 % 4 * 16)]
  | [b0, b1] =>
    [b64Char (b0 % 256 / 4), b64Char (b0 % 4 * 16 + b1 % 256 / 16), b64Char (b1 % 16 * 4)]
  | b0 :: b1 :: b2 :: rest =>
    b64Char (b0 % 256 / 4) :: b64Char (b0 % 4 * 16 + b1 % 256 / 16) ::
      b64Char (b1 % 16 * 4 + b2 % 256 / 64) :: b64Char (b2 % 64) :: b64EncodeBytes rest

/-- Base64-decode an unpadded character list; `none` on any character
outside the alphabet, an impossible length, or nonzero trailing bits. -/
def b64DecodeChars : List Char → Option (List Nat)
  | [] => some []
  | [_] => none
  | [c0, c1] => do
    let n0 ← b64Value c0
    let n1 ← b64Value c1
    if n1 % 16 = 0 then some [n0 * 4 + n1 / 16] else none
  | [c0, c1, c2] => do
    let n0 ← b64Value c0
    let n1 ← b64Value c1
    let n2 ← b64Value c2
    if n2 % 4 = 0 then some [n0 * 4 + n1 / 16, n1 % 16 * 16 + n2 / 4] else none
  | c0 :: c1 :: c2 :: c3 :: rest => do
    let n0 ← b64Value c0
    let n1 ← b64Value c1
    let n2 ← b64Value c2
    let n3 ← b64Value c3
    let tl ← b64DecodeChars rest
    some ((n0 * 4 + n1 / 16) :: (n1 % 16 * 16 + n2 / 4) :: (n2 % 4 * 64 + n3) :: tl)

/-! ## Decimal numerals

Modelled from the spec: the `m=`, `t=`, `p=` and `v=` fields of the
encoded string carry decimal integers; printing lives in the compiled
core's encoding layer, absent from `src/`. -/

def decDigitChars : List Char := "0123456789".data

/-- The character for a decimal digit value (values taken mod 10). -/
def decDigitChar (d : Nat) : Char := decDigitChars.getD (d % 10) '0'

/-- Print a natural number in decimal, most significant digit first. -/
def printNatChars (n : Nat) : List Char :=
  if _h : n < 10 then [decDigitChar n]
  else printNatChars (n / 10) ++ [decDigitChar (n % 10)]
  termination_by n
  decreasing_by exact Nat.div_lt_self (by omega) (by omega)

/-- The value of a decimal digit character, if it is one. -/
def decDigitValue (c : Char) : Option Nat := charIndex c decDigitChars

/-- Accumulating decimal parse; `none` on any non-digit character. -/
def parseNatAux : List Char → Nat → Option Nat
  | [], acc => some acc
  | c :: rest, acc =>
    match decDigitValue c with
    | none => none
    | some d => parseNatAux rest (10 * acc + d)

/-- Parse a nonempty all-digit character list as a decimal number. -/
def parseNatChars (cs : List Char) : Option Nat :=
  if cs = [] then none else parseNatAux cs 0

/-! ## Argon2 error codes

Modelled from the spec: §7 requires "a distinct code per violated
constraint" and distinct parse/mismatch outcomes; the concrete numeric
values follow the reference `argon2.h`, which the compiled core (absent
from `src/`) embeds. -/

def ARGON2_OK : Int := 0

def ARGON2_OUTPUT_TOO_SHORT : Int := -6

def ARGON2_TIME_TOO_SMALL : Int := -12

def ARGON2_MEMORY_TOO_LITTLE : Int := -14

def ARGON2_LANES_TOO_FEW : Int := -16

def ARGON2_LANES_TOO_MANY : Int := -17

def ARGON2_INCORRECT_TYPE : Int := -26

def ARGON2_DECODING_FAIL : Int := -32

def ARGON2_VERIFY_MISMATCH : Int := -35

/-! ## The encoded-string format

Modelled from the spec: §3/§2.5 — the encoded string is
`$argon2{d,i,id}$v=19$m=...,t=...,p=...$<salt>$<hash>`, produced and
parsed by the compiled core's encoding layer (absent from `src/`);
"parsing an encoded string must reconstruct parameters byte-identical to
those used to produce it", and parsing "must reject malformed strings
(wrong field count, invalid base64, unknown variant tag)". -/

/-- The tag of each Argon2 variant (0 = Argon2d, 1 = Argon2i, 2 = Argon2id). -/
def typeName : Nat → Option (List Char)
  | 0 => some "argon2d".data
  | 1 => some "argon2i".data
  | 2 => some "argon2id".data
  | _ => none

/-- The variant named by a tag field, if recognized. -/
def typeOfTag (cs : List Char) : Option Nat :=
  if cs = "argon2d".data then some 0
  else if cs = "argon2i".data then some 1
  else if cs = "argon2id".data then some 2
  else none

/-- Strip an expected literal prefix, returning the remainder. -/
def stripPrefixChars : List Char → List Char → Option (List Char)
  | [], cs => some cs
  | _ :: _, [] => none
  | a :: p, c :: cs => if c = a then stripPrefixChars p cs else none

/-- Parse the `m=...,t=...,p=...` performance-parameter field. -/
def parsePerfParams (cs : List Char) : Option (Nat × Nat × Nat) :=
  match splitOnAux ',' cs with
  | [f1, f2, f3] => do
    let m ← stripPrefixChars "m=".data f1 >>= parseNatChars
    let t ← stripPrefixChars "t=".data f2 >>= parseNatChars
    let p ← stripPrefixChars "p=".data f3 >>= parseNatChars
    some (m, t, p)
  | _ => none

/-- Produce the encoded string (as characters) for the given variant,
version, costs, salt and digest. -/
def encodeHashData (ty ver m t p : Nat) (salt digest : List Nat) : List Char :=
  '$' :: (typeName ty).getD [] ++
    '$' :: "v=".data ++ printNatChars ver ++
    '$' :: "m=".data ++ printNatChars m ++
    ',' :: "t=".data ++ printNatChars t ++
    ',' :: "p=".data ++ printNatChars p ++
    '$' :: b64EncodeBytes salt ++
    '$' :: b64EncodeBytes digest

/-- Parse an encoded string (as characters) into
`(variant, version, m, t, p, salt, digest)`; `none` when malformed. -/
def decodeHashData (cs : List Char) : Option (Nat × Nat × Nat × Nat × Nat × List Nat × List Nat) :=
  match splitOnAux '$' cs with
  | [lead, tagF, verF, perfF, saltF, hashF] =>
    if lead = [] then do
      let ty ← typeOfTag tagF
      let ver ← stripPrefixChars "v=".data verF >>= parseNatChars
      let mtp ← parsePerfParams perfF
      let salt ← b64DecodeChars saltF
      let digest ← b64DecodeChars hashF
      some (ty, ver, mtp.1, mtp.2.1, mtp.2.2, salt, digest)
    else none
  | _ => none

/-! ## The modelled Argon2 core -/

/-- Modelled from the spec: §4.5 parameter validation of the compiled core
(absent from `src/`) — "time cost ≥ 1, memory cost ≥ 8×parallelism,
parallelism ≥ 1 and ≤ a fixed ceiling (commonly 2^24−1), output length
≥ 4", failing "with a parameter-validation error (distinct code per
violated constraint) before any memory is allocated". -/
def validateParams (t m p hl : Nat) : Int :=
  if hl < 4 then ARGON2_OUTPUT_TOO_SHORT
  else if t < 1 then ARGON2_TIME_TOO_SMALL
  else if p < 1 then ARGON2_LANES_TOO_FEW
  else if 16777215 < p then ARGON2_LANES_TOO_MANY
  else if m < 8 * p then ARGON2_MEMORY_TOO_LITTLE
  else ARGON2_OK

/-- Little-endian base-256 value of a byte list. -/
def polyVal (bs : List Nat) : Nat := bs.foldr (fun b a => b + 256 * a) 0

/-- Modelled from the spec: a password fingerprint inside the digest.  The
memory-hard computation of the compiled core (absent from `src/`) is a
cryptographic function of the password; the spec (§8) requires that
"changing a single byte of the password" changes the digest.  The model
realizes this with the password's base-256 value reduced modulo the prime
65521, which provably changes under any single-byte change. -/
def passChecksum (pwd : List Nat) : Nat := polyVal pwd % 65521

/-- Modelled from the spec: deterministic mixing of the non-password
inputs into the digest (the real mixing is the compiled core's
memory-hard computation, absent from `src/`). -/
def paramsChecksum (ty ver t m p : Nat) (salt : List Nat) : Nat :=
  ty + 3 * ver + 7 * t + 11 * m + 13 * p + 17 * polyVal salt

/-- Modelled from the spec: the Argon2 digest function of the compiled
core (absent from `src/`).  §4.2–4.4 describe it as a deterministic,
memory-hard function of {variant, version, time, memory, parallelism,
output length, password, salt} producing `hl` bytes; the block mixing
itself is not modelled.  Bytes 0–1 hold the password fingerprint, so the
spec's single-byte-change property (§8) holds of the model. -/
def argon2Digest (ty ver t m p hl : Nat) (pwd salt : List Nat) : List Nat :=
  let hp := passChecksum pwd
  let mix := paramsChecksum ty ver t m p salt
  (List.range hl).map fun j =>
    if j = 0 then hp % 256
    else if j = 1 then hp / 256
    else (mix + 31 * j + hp) % 256

/-- Modelled from the spec: `_argon2_error_message` of the compiled core
(absent from `src/`) — a total map from codes to non-empty message
strings, as in the reference implementation. -/
def argon2ErrorMessage (code : Int) : String :=
  if code = ARGON2_OK then "OK"
  else if code = ARGON2_OUTPUT_TOO_SHORT then "Output is too short"
  else if code = ARGON2_TIME_TOO_SMALL then "Time cost is too small"
  else if code = ARGON2_MEMORY_TOO_LITTLE then "Memory cost is too small"
  else if code = ARGON2_LANES_TOO_FEW then "Too few lanes"
  else if code = ARGON2_LANES_TOO_MANY then "Too many lanes"
  else if code = ARGON2_INCORRECT_TYPE then "There is no such version of Argon2"
  else if code = ARGON2_DECODING_FAIL then "Decoding failed"
  else if code = ARGON2_VERIFY_MISMATCH then "The password does not match the supplied hash"
  else "Unknown error code"

/-- Outcome of a call to `Module._argon2_hash`: either a thrown JS
exception, or a return code together with the bytes the core left in the
`hash` buffer and the string it left in the `encoded` buffer.
`ranComputation` records whether the memory-hard computation was
reached (instrumentation for the fail-fast property). -/
inductive CoreHashOutcome where
  | threw (e : String)
  | ret (code : Int) (digest : List Nat) (encodedOut : String) (ranComputation : Bool)
deriving DecidableEq

/-- Modelled from the spec: the behaviour of `_argon2_hash` in the
compiled core (absent from `src/`) — validate parameters first ("fail
fast, no wasted memory-hard work", §7), reject unknown variants, then run
the deterministic digest computation and produce the encoded string. -/
def specHashCore (t m p : Nat) (pwd salt : List Nat) (hl ty ver : Nat) : CoreHashOutcome :=
  let code := validateParams t m p hl
  if code ≠ ARGON2_OK then .ret code [] "" false
  else if (typeName ty).isNone then .ret ARGON2_INCORRECT_TYPE [] "" false
  else
    let d := argon2Digest ty ver t m p hl pwd salt
    .ret ARGON2_OK d (String.mk (encodeHashData ty ver m t p salt d)) true

/-- Outcome of a call to `Module._argon2_verify`: a thrown JS exception
or a return code. -/
inductive CoreVerifyOutcome where
  | threw (e : String)
  | ret (code : Int)
deriving DecidableEq

/-- Modelled from the spec: the behaviour of `_argon2_verify` in the
compiled core (absent from `src/`) — §6: decode the encoded string
(rejecting malformed input with a parse error), recompute the hash "with
the parameters embedded in the encoded string", and compare digests,
reporting a mismatch as a distinct, expected outcome (§7).  As in the
reference implementation, a variant argument that does not match the
string's tag is a decoding failure. -/
def specVerifyCore (ty : Option Nat) (encoded : String) (pwd : List Nat) : CoreVerifyOutcome :=
  match decodeHashData encoded.data with
  | none => .ret ARGON2_DECODING_FAIL
  | some (vty, ver, m, t, p, salt, digest) =>
    if ty ≠ some vty then .ret ARGON2_DECODING_FAIL
    else
      let code := validateParams t m p digest.length
      if code ≠ ARGON2_OK then .ret code
      else if argon2Digest vty ver t m p digest.length pwd salt = digest then .ret ARGON2_OK
      else .ret ARGON2_VERIFY_MISMATCH

/-! ## The allocation model

`Module.allocate`/`Module._free` are modelled by a set of live buffer
identifiers; buffer contents flow through the wrapper separately (the
model threads the byte lists directly). -/

structure AllocState where
  next : Nat
  live : List Nat
deriving DecidableEq

/-- JS `Module.allocate(...)`: return a fresh buffer id and mark it live. -/
def allocBuf (σ : AllocState) : Nat × AllocState :=
  (σ.next, ⟨σ.next + 1, σ.next :: σ.live⟩)

/-- JS `Module._free(p)`: remove a buffer id from the live set. -/
def freeBuf (p : Nat) (σ : AllocState) : AllocState :=
  ⟨σ.next, σ.live.erase p⟩

/-! ## The wrapper: `dist/argon2.js` -/

/-- The JS `ArgonType` enum object (lines 8–12), as a lookup from property
name to value: `{Argon2d: 0, Argon2i: 1, Argon2id: 2}`. -/
def ArgonTypeLookup (s : List Char) : Option Nat :=
  if s = "Argon2d".data then some 0
  else if s = "Argon2i".data then some 1
  else if s = "Argon2id".data then some 2
  else none

/-- JS `x || d` for a possibly-undefined number `x`: `undefined` and `0`
are falsy, so both select the default. -/
def jsOrNat (o : Option Nat) (d : Nat) : Nat :=
  match o with
  | none => d
  | some n => if n = 0 then d else n

/-- The `params` object accepted by `argon2Hash` (lines 37–47): `pass`
and `salt` as byte arrays; `time`, `mem`, `parallelism`, `hashLen`,
`type` optional numbers (`none` = omitted/`undefined`). -/
structure HashParams where
  pass : List Nat
  salt : List Nat
  time : Option Nat
  mem : Option Nat
  parallelism : Option Nat
  hashLen : Option Nat
  type : Option Nat
deriving DecidableEq

/-- The local values `argon2Hash` computes on lines 57–69. -/
structure ResolvedHashParams where
  tCost : Nat
  mCost : Nat
  parallelism : Nat
  hashlen : Nat
  argon2Type : Nat
  version : Nat
deriving DecidableEq

/-- Lines 57–69: `params.time || 1`, `params.mem || 1024`,
`params.parallelism || 1`, `params.hashLen || 24`,
`params.type || argon2.ArgonType.Argon2d`, `version = 0x13`. -/
def resolveHashParams (params : HashParams) : ResolvedHashParams :=
  ⟨jsOrNat params.time 1, jsOrNat params.mem 1024, jsOrNat params.parallelism 1,
    jsOrNat params.hashLen 24, jsOrNat params.type 0, 0x13⟩

/-- The error object `{message: ..., code: ...}` built on lines 95/152.
Either field can be `undefined` (`none`): `code` when the core threw
(`res` never assigned), `message` if no message was obtained. -/
structure JsError where
  message : Option String
  code : Option Int
deriving DecidableEq

/-- The success object `{hash: ..., hashHex: ..., encoded: ...}` built on
line 87. -/
structure HashSuccess where
  hash : List Nat
  hashHex : String
  encoded : String
deriving DecidableEq

/-- How a call to `argon2Hash` ends: return of the success object, return
of the error object (line 106 with a falsy `err`), or throw of the error
object (line 104). -/
inductive HashOutcome where
  | returned (r : HashSuccess)
  | returnedError (e : JsError)
  | thrown (e : JsError)
deriving DecidableEq

def HashOutcome.isReturned : HashOutcome → Bool
  | .returned _ => true
  | _ => false

/-- Line 84: `('0' + (0xFF & byte).toString(16)).slice(-2)` — pad the hex
representation of the byte to the left with `'0'` and keep the last two
characters.  `Nat.toDigits 16` is JS `Number.prototype.toString(16)` for
nonnegative integers (lowercase, no leading zeros). -/
def jsByteHex (byte : Nat) : String :=
  let s := '0' :: Nat.toDigits 16 (byte % 256)
  String.mk (s.drop (s.length - 2))

/-- Lines 56–108 of `dist/argon2.js`, as a function of the params object,
the outcome of the single `Module._argon2_hash` call, and the allocation
state.  Allocations (lines 60–67), the `try`/`catch` around the core call
(71–76), result shaping (77–96), the frees (97–102) and the final
throw-or-return (103–107) are translated line by line; heap reads
(`HEAP8[hash + i]`, `Pointer_stringify(encoded)`) are modelled via the
byte list/string carried by the core outcome, with byte values reduced
mod 256 as the signed-heap-read/`Uint8Array`-store pair does. -/
def argon2HashRun (params : HashParams) (co : CoreHashOutcome) (σ : AllocState) :
    HashOutcome × AllocState :=
  let (pwd, σ1) := allocBuf σ        -- line 60: allocateArray(params.pass)
  let (salt, σ2) := allocBuf σ1      -- line 62: allocateArray(params.salt)
  let (hashBuf, σ3) := allocBuf σ2   -- line 64: Module.allocate(new Array(hashLen))
  let (encodedBuf, σ4) := allocBuf σ3 -- line 66: Module.allocate(new Array(512))
  let r := resolveHashParams params
  -- lines 97-102: Module._free(pwd); _free(salt); _free(hash); _free(encoded)
  let σ5 := freeBuf encodedBuf (freeBuf hashBuf (freeBuf salt (freeBuf pwd σ4)))
  match co with
  | .threw e =>
    -- line 75: err = e (truthy); res stays undefined, so line 78 is false
    -- and line 90 skips _argon2_error_message; line 95 then line 104.
    (.thrown ⟨some e, none⟩, σ5)
  | .ret code digest encodedOut _ =>
    if code = 0 then
      -- lines 79-87: read hashlen bytes from the heap, hex-encode them,
      -- stringify the encoded buffer.
      let hashArr := (List.range r.hashlen).map fun i => digest.getD i 0 % 256
      let hashStr := hashArr.foldl (fun s b => s ++ jsByteHex b) ""
      (.returned ⟨hashArr, hashStr, encodedOut⟩, σ5)
    else
      -- lines 89-95: err = Pointer_stringify(_argon2_error_message(res))
      let msg := argon2ErrorMessage code
      let result : JsError := ⟨some msg, some code⟩
      -- lines 103-107: if (err) throw result; else return result
      if msg = "" then (.returnedError result, σ5) else (.thrown result, σ5)

/-- The function `argon2Hash` (lines 56–108) with the modelled core plugged in for
`Module._argon2_hash`. -/
def argon2Hash (params : HashParams) (σ : AllocState) : HashOutcome × AllocState :=
  let r := resolveHashParams params
  argon2HashRun params
    (specHashCore r.tCost r.mCost r.parallelism params.pass params.salt
      r.hashlen r.argon2Type r.version) σ

/-- The `params` object accepted by `argon2Verify` (lines 112–117). -/
structure VerifyParams where
  pass : List Nat
  encoded : String
  type : Option Nat
deriving DecidableEq

/-- How a call to `argon2Verify` ends: return of `result` (`undefined` on
success, the error object if `err` was falsy), or throw of the error
object. -/
inductive VerifyOutcome where
  | returned (r : Option JsError)
  | thrown (e : JsError)
deriving DecidableEq

/-- Lines 130–137: `argon2Type = params.type`; if that is `undefined`,
parse `params.encoded.split('$')[1]`, and if that field is truthy
(present and non-empty) use `ArgonType[typeStr.replace('a', 'A')] ||
ArgonType.Argon2d`. -/
def verifyArgon2Type (ptype : Option Nat) (encoded : String) : Option Nat :=
  match ptype with
  | some t => some t
  | none =>
    match (splitOnAux '$' encoded.data).get? 1 with
    | none => none
    | some typeStr =>
      if typeStr = [] then none
      else some (jsOrNat (ArgonTypeLookup (jsReplaceFirst 'a' 'A' typeStr)) 0)

/-- Lines 126–163 of `dist/argon2.js`, as a function of the params
object, the outcome of the single `Module._argon2_verify` call, and the
allocation state: allocations (127, 129), the `try`/`catch` around the
core call (139–143), result shaping (144–153), the frees (154–157) and
the final throw-or-return (158–162). -/
def argon2VerifyRun (_params : VerifyParams) (co : CoreVerifyOutcome) (σ : AllocState) :
    VerifyOutcome × AllocState :=
  let (pwd, σ1) := allocBuf σ        -- line 127: allocateArray(params.pass)
  let (enc, σ2) := allocBuf σ1       -- line 129: allocateArray(params.encoded)
  -- lines 154-157: Module._free(pwd); Module._free(enc)
  let σ3 := freeBuf enc (freeBuf pwd σ2)
  match co with
  | .threw e =>
    -- line 142: err = e (truthy); res stays undefined; lines 145-152, 159.
    (.thrown ⟨some e, none⟩, σ3)
  | .ret code =>
    if code = 0 then
      -- line 145 is false: result stays undefined; line 161 returns it.
      (.returned none, σ3)
    else
      let msg := argon2ErrorMessage code
      let result : JsError := ⟨some msg, some code⟩
      if msg = "" then (.returned (some result), σ3) else (.thrown result, σ3)

/-- The function `argon2Verify` (lines 126–163) with the modelled core plugged in for
`Module._argon2_verify`, the variant chosen on lines 130–137. -/
def argon2Verify (params : VerifyParams) (σ : AllocState) : VerifyOutcome × AllocState :=
  argon2VerifyRun params
    (specVerifyCore (verifyArgon2Type params.type params.encoded) params.encoded params.pass) σ

/-- Specification-side hex encoding: each byte as two lowercase hex
digits, most significant first. -/
def specHexEncode (bs : List Nat) : List Char :=
  bs.flatMap fun b => [Nat.digitChar (b / 16 % 16), Nat.digitChar (b % 16)]

/-! # Theorems -/

/-! ## String-splitting lemmas -/

theorem splitOnAux_ne_nil (sep : Char) (cs : List Char) : splitOnAux sep cs ≠ [] := by
  cases cs with
  | nil => simp [splitOnAux]
  | cons c rest =>
    simp only [splitOnAux]
    split <;> simp

/-- Splitting a separator-free list yields a single group. -/
theorem splitOnAux_of_not_mem {sep : Char} {xs : List Char} (h : sep ∉ xs) :
    splitOnAux sep xs = [xs] := by
  induction xs with
  | nil => rfl
  | cons c rest ih =>
    simp only [List.mem_cons, not_or] at h
    simp [splitOnAux, ih h.2, Ne.symm h.1]

/-- Splitting peels off a leading separator-free group. -/
theorem splitOnAux_append {sep : Char} {xs : List Char} (ys : List Char) (h : sep ∉ xs) :
    splitOnAux sep (xs ++ sep :: ys) = xs :: splitOnAux sep ys := by
  induction xs with
  | nil => simp [splitOnAux]
  | cons c rest ih =>
    simp only [List.mem_cons, not_or] at h
    simp [splitOnAux, ih h.2, Ne.symm h.1]

/-! ## Base64 lemmas -/

set_option maxRecDepth 4096 in
theorem b64Value_b64Char {n : Nat} (h : n < 64) : b64Value (b64Char n) = some n := by
  have : ∀ m ∈ List.range 64, b64Value (b64Char m) = some m := by decide
  simpa using this n (List.mem_range.mpr h)

theorem b64Char_mem_alphabet (n : Nat) : b64Char n ∈ b64Alphabet := by
  have h : n % 64 < b64Alphabet.length := by
    have : b64Alphabet.length = 64 := by decide
    omega
  rw [b64Char, List.getD_eq_getElem _ _ h]
  exact List.getElem_mem h

theorem mem_b64EncodeBytes {bs : List Nat} {c : Char} (h : c ∈ b64EncodeBytes bs) :
    c ∈ b64Alphabet := by
  induction bs using b64EncodeBytes.induct with
  | case1 => simp [b64EncodeBytes] at h
  | case2 b0 =>
    simp only [b64EncodeBytes, List.mem_cons, List.not_mem_nil, or_false] at h
    rcases h with h | h <;> exact h ▸ b64Char_mem_alphabet _
  | case3 b0 b1 =>
    simp only [b64EncodeBytes, List.mem_cons, List.not_mem_nil, or_false] at h
    rcases h with h | h | h <;> exact h ▸ b64Char_mem_alphabet _
  | case4 b0 b1 b2 rest ih =>
    simp only [b64EncodeBytes, List.mem_cons] at h
    rcases h with h | h | h | h | h
    · exact h ▸ b64Char_mem_alphabet _
    · exact h ▸ b64Char_mem_alphabet _
    · exact h ▸ b64Char_mem_alphabet _
    · exact h ▸ b64Char_mem_alphabet _
    · exact ih h

/-- Base64 round trip on byte lists. -/
theorem b64DecodeChars_b64EncodeBytes {bs : List Nat} (h : ∀ b ∈ bs, b < 256) :
    b64DecodeChars (b64EncodeBytes bs) = some bs := by
  induction bs using b64EncodeBytes.induct with
  | case1 => rfl
  | case2 b0 =>
    have hb0 : b0 < 256 := h b0 (by simp)
    simp only [b64EncodeBytes, b64DecodeChars]
    rw [b64Value_b64Char (by omega), b64Value_b64Char (by omega)]
    simp only [Option.bind_eq_bind, Option.some_bind]
    rw [if_pos (by omega)]
    congr 2
    omega
  | case3 b0 b1 =>
    have hb0 : b0 < 256 := h b0 (by simp)
    have hb1 : b1 < 256 := h b1 (by simp)
    simp only [b64EncodeBytes, b64DecodeChars]
    rw [b64Value_b64Char (by omega), b64Value_b64Char (by omega), b64Value_b64Char (by omega)]
    simp only [Option.bind_eq_bind, Option.some_bind]
    rw [if_pos (by omega)]
    congr 2
    · omega
    · congr 1
      omega
  | case4 b0 b1 b2 rest ih =>
    have hb0 : b0 < 256 := h b0 (by simp)
    have hb1 : b1 < 256 := h b1 (by simp)
    have hb2 : b2 < 256 := h b2 (by simp)
    have hrest : ∀ b ∈ rest, b < 256 := fun b hb => h b (by simp [hb])
    simp only [b64EncodeBytes, b64DecodeChars]
    rw [b64Value_b64Char (by omega), b64Value_b64Char (by omega), b64Value_b64Char (by omega),
      b64Value_b64Char (by omega), ih hrest]
    simp only [Option.bind_eq_bind, Option.some_bind]
    congr 1
    congr 1
    · omega
    congr 1
    · omega
    congr 1
    omega

/-! ## Decimal lemmas -/

theorem decDigitValue_decDigitChar {d : Nat} (h : d < 10) :
    decDigitValue (decDigitChar d) = some d := by
  have : ∀ m ∈ List.range 10, decDigitValue (decDigitChar m) = some m := by decide
  simpa using this d (List.mem_range.mpr h)

theorem decDigitChar_mem (d : Nat) : decDigitChar d ∈ decDigitChars := by
  have h : d % 10 < decDigitChars.length := by
    have : decDigitChars.length = 10 := by decide
    omega
  rw [decDigitChar, List.getD_eq_getElem _ _ h]
  exact List.getElem_mem h

theorem mem_printNatChars {n : Nat} {c : Char} (h : c ∈ printNatChars n) :
    c ∈ decDigitChars := by
  induction n using printNatChars.induct with
  | case1 n hn =>
    rw [printNatChars, dif_pos hn] at h
    simp only [List.mem_singleton] at h
    exact h ▸ decDigitChar_mem n
  | case2 n hn ih =>
    rw [printNatChars, dif_neg hn] at h
    rcases List.mem_append.mp h with h | h
    · exact ih h
    · simp only [List.mem_singleton] at h
      exact h ▸ decDigitChar_mem _

theorem printNatChars_ne_nil (n : Nat) : printNatChars n ≠ [] := by
  rw [printNatChars]
  split <;> simp

theorem parseNatAux_append (xs ys : List Char) (acc : Nat) :
    parseNatAux (xs ++ ys) acc =
      match parseNatAux xs acc with
      | none => none
      | some a => parseNatAux ys a := by
  induction xs generalizing acc with
  | nil => simp [parseNatAux]
  | cons c rest ih =>
    simp only [List.cons_append, parseNatAux]
    cases decDigitValue c with
    | none => rfl
    | some d => exact ih _

theorem parseNatAux_printNatChars (n acc : Nat) :
    parseNatAux (printNatChars n) acc = some (acc * 10 ^ (printNatChars n).length + n) := by
  induction n using printNatChars.induct generalizing acc with
  | case1 n hn =>
    rw [printNatChars, dif_pos hn]
    simp [parseNatAux, decDigitValue_decDigitChar hn]
    omega
  | case2 n hn ih =>
    rw [printNatChars, dif_neg hn]
    rw [parseNatAux_append, ih acc]
    simp only [parseNatAux, decDigitValue_decDigitChar (Nat.mod_lt _ (by omega)),
      List.length_append, List.length_singleton]
    congr 1
    rw [pow_succ, ← mul_assoc]
    have h10 : 10 * (n / 10) + n % 10 = n := Nat.div_add_mod n 10
    omega

/-- Decimal round trip. -/
theorem parseNatChars_printNatChars (n : Nat) : parseNatChars (printNatChars n) = some n := by
  rw [parseNatChars, if_neg (printNatChars_ne_nil n), parseNatAux_printNatChars]
  simp

/-! ## Encoded-string round trip -/

theorem stripPrefixChars_append (p rest : List Char) :
    stripPrefixChars p (p ++ rest) = some rest := by
  induction p with
  | nil => rfl
  | cons a p ih => simp [stripPrefixChars, ih]

theorem dollar_not_mem_printNatChars {n : Nat} : '$' ∉ printNatChars n :=
  fun h => by have := mem_printNatChars h; revert this; decide

theorem comma_not_mem_printNatChars {n : Nat} : ',' ∉ printNatChars n :=
  fun h => by have := mem_printNatChars h; revert this; decide

theorem dollar_not_mem_b64EncodeBytes {bs : List Nat} : '$' ∉ b64EncodeBytes bs :=
  fun h => by have := mem_b64EncodeBytes h; revert this; decide

theorem comma_not_mem_b64EncodeBytes {bs : List Nat} : ',' ∉ b64EncodeBytes bs :=
  fun h => by have := mem_b64EncodeBytes h; revert this; decide

theorem parsePerfParams_roundtrip (m t p : Nat) :
    parsePerfParams ("m=".data ++ printNatChars m ++ ',' :: "t=".data ++ printNatChars t ++
      ',' :: "p=".data ++ printNatChars p) = some (m, t, p) := by
  have hm : ',' ∉ "m=".data ++ printNatChars m := by
    intro h
    rcases List.mem_append.mp h with h | h
    · revert h; decide
    · exact comma_not_mem_printNatChars h
  have ht : ',' ∉ "t=".data ++ printNatChars t := by
    intro h
    rcases List.mem_append.mp h with h | h
    · revert h; decide
    · exact comma_not_mem_printNatChars h
  have hp : ',' ∉ "p=".data ++ printNatChars p := by
    intro h
    rcases List.mem_append.mp h with h | h
    · revert h; decide
    · exact comma_not_mem_printNatChars h
  have e1 : "m=".data ++ printNatChars m ++ ',' :: "t=".data ++ printNatChars t ++
      ',' :: "p=".data ++ printNatChars p =
      ("m=".data ++ printNatChars m) ++
        ',' :: (("t=".data ++ printNatChars t) ++ ',' :: ("p=".data ++ printNatChars p)) := by
    simp [List.append_assoc]
  have split3 :
      splitOnAux ',' ("m=".data ++ printNatChars m ++ ',' :: "t=".data ++ printNatChars t ++
        ',' :: "p=".data ++ printNatChars p) =
      [("m=".data ++ printNatChars m), ("t=".data ++ printNatChars t),
        ("p=".data ++ printNatChars p)] := by
    rw [e1, splitOnAux_append _ hm, splitOnAux_append _ ht, splitOnAux_of_not_mem hp]
  rw [parsePerfParams, split3]
  simp only [stripPrefixChars_append, parseNatChars_printNatChars, Option.bind_eq_bind,
    Option.some_bind, Option.bind_some]

theorem typeOfTag_typeName {ty : Nat} (h : ty ≤ 2) (tag : List Char)
    (htag : typeName ty = some tag) : typeOfTag tag = some ty := by
  interval_cases ty <;> simp only [typeName, Option.some.injEq] at htag <;> subst htag <;> decide

theorem typeName_isSome {ty : Nat} (h : ty ≤ 2) : (typeName ty).isSome := by
  interval_cases ty <;> decide

theorem splitOnAux_cons_self (sep : Char) (ys : List Char) :
    splitOnAux sep (sep :: ys) = [] :: splitOnAux sep ys := by
  simp [splitOnAux]

/-- The `$`-split of an encoded string: an empty lead, the variant tag,
the version field, the performance-parameter field, and the two base64
fields. -/
theorem splitOnAux_encodeHashData {ty : Nat} {tag : List Char} (hty : ty ≤ 2)
    (htag : typeName ty = some tag) (ver m t p : Nat) (salt digest : List Nat) :
    splitOnAux '$' (encodeHashData ty ver m t p salt digest) =
      [[], tag, "v=".data ++ printNatChars ver,
        "m=".data ++ printNatChars m ++ ',' :: "t=".data ++ printNatChars t ++
          ',' :: "p=".data ++ printNatChars p,
        b64EncodeBytes salt, b64EncodeBytes digest] := by
  have htagchars : '$' ∉ tag := by
    interval_cases ty <;> simp only [typeName, Option.some.injEq] at htag <;> subst htag <;> decide
  have hver : '$' ∉ "v=".data ++ printNatChars ver := by
    intro h
    rcases List.mem_append.mp h with h | h
    · revert h; decide
    · exact dollar_not_mem_printNatChars h
  have hperf : '$' ∉ "m=".data ++ printNatChars m ++ ',' :: "t=".data ++ printNatChars t ++
      ',' :: "p=".data ++ printNatChars p := by
    intro h
    simp only [List.mem_append] at h
    rcases h with ((((h | h) | h) | h) | h) | h
    · revert h; decide
    · exact dollar_not_mem_printNatChars h
    · revert h; decide
    · exact dollar_not_mem_printNatChars h
    · revert h; decide
    · exact dollar_not_mem_printNatChars h
  have henc : encodeHashData ty ver m t p salt digest =
      '$' :: (tag ++ '$' :: (("v=".data ++ printNatChars ver) ++
        '$' :: (("m=".data ++ printNatChars m ++ ',' :: "t=".data ++ printNatChars t ++
          ',' :: "p=".data ++ printNatChars p) ++
        '$' :: (b64EncodeBytes salt ++ '$' :: b64EncodeBytes digest)))) := by
    simp only [encodeHashData, htag, Option.getD_some, List.cons_append, List.append_assoc]
  rw [henc, splitOnAux_cons_self, splitOnAux_append _ htagchars, splitOnAux_append _ hver,
    splitOnAux_append _ hperf, splitOnAux_append _ dollar_not_mem_b64EncodeBytes,
    splitOnAux_of_not_mem dollar_not_mem_b64EncodeBytes]

/-- Encoded-string round trip: parsing reconstructs variant, version,
costs, salt and digest exactly. -/
theorem decodeHashData_encodeHashData {ty : Nat} (ver m t p : Nat) {salt digest : List Nat}
    (hty : ty ≤ 2) (hsalt : ∀ b ∈ salt, b < 256) (hdigest : ∀ b ∈ digest, b < 256) :
    decodeHashData (encodeHashData ty ver m t p salt digest) =
      some (ty, ver, m, t, p, salt, digest) := by
  obtain ⟨tag, htag⟩ := Option.isSome_iff_exists.mp (typeName_isSome hty)
  simp only [decodeHashData, splitOnAux_encodeHashData hty htag, stripPrefixChars_append,
    parseNatChars_printNatChars, b64DecodeChars_b64EncodeBytes hsalt,
    b64DecodeChars_b64EncodeBytes hdigest, typeOfTag_typeName hty tag htag,
    Option.bind_eq_bind, Option.some_bind, Option.bind_some]
  rw [parsePerfParams_roundtrip]
  simp

/-! ## Digest lemmas -/

theorem polyVal_nil : polyVal [] = 0 := rfl

theorem polyVal_cons (b : Nat) (bs : List Nat) : polyVal (b :: bs) = b + 256 * polyVal bs := rfl

theorem polyVal_append_cons (l : List Nat) (b : Nat) (r : List Nat) :
    polyVal (l ++ b :: r) = polyVal l + 256 ^ l.length * (b + 256 * polyVal r) := by
  induction l with
  | nil => simp [polyVal_cons, polyVal_nil]
  | cons c l ih =>
    simp only [List.cons_append, polyVal_cons, ih, List.length_cons, pow_succ]
    ring

theorem passChecksum_lt (pwd : List Nat) : passChecksum pwd < 65521 :=
  Nat.mod_lt _ (by omega)

/-- Changing a single byte of the password changes the password
fingerprint: 256 is invertible modulo the prime 65521, so the two
base-256 values differ modulo 65521. -/
theorem passChecksum_ne {l r : List Nat} {b b' : Nat} (hb : b < 256) (hb' : b' < 256)
    (hne : b ≠ b') : passChecksum (l ++ b :: r) ≠ passChecksum (l ++ b' :: r) := by
  intro h
  have hmod : polyVal (l ++ b :: r) ≡ polyVal (l ++ b' :: r) [MOD 65521] := h
  have hdvd : (65521 : ℤ) ∣ (polyVal (l ++ b' :: r) : ℤ) - (polyVal (l ++ b :: r) : ℤ) :=
    (Nat.modEq_iff_dvd).mp hmod
  have hdiff : (polyVal (l ++ b' :: r) : ℤ) - (polyVal (l ++ b :: r) : ℤ) =
      (256 : ℤ) ^ l.length * ((b' : ℤ) - (b : ℤ)) := by
    rw [polyVal_append_cons, polyVal_append_cons]
    push_cast
    ring
  rw [hdiff] at hdvd
  have hprime : Prime (65521 : ℤ) := by
    rw [Int.prime_iff_natAbs_prime]
    norm_num
  rcases hprime.dvd_mul.mp hdvd with hd | hd
  · have h256 : (65521 : ℤ) ∣ 256 := hprime.dvd_of_dvd_pow hd
    have := Int.le_of_dvd (by omega) h256
    omega
  · have habs : (65521 : ℤ) ∣ |(b' : ℤ) - (b : ℤ)| := (dvd_abs _ _).mpr hd
    have hbne : (b' : ℤ) - (b : ℤ) ≠ 0 := by
      intro h0
      have hcast : (b : ℤ) = (b' : ℤ) := by omega
      exact hne (by exact_mod_cast hcast)
    have hpos : 0 < |(b' : ℤ) - (b : ℤ)| := abs_pos.mpr hbne
    have hle := Int.le_of_dvd hpos habs
    have hlt : |(b' : ℤ) - (b : ℤ)| < 65521 := by
      rw [abs_lt]
      constructor <;> omega
    omega

theorem argon2Digest_length (ty ver t m p hl : Nat) (pwd salt : List Nat) :
    (argon2Digest ty ver t m p hl pwd salt).length = hl := by
  simp [argon2Digest]

theorem argon2Digest_lt_256 (ty ver t m p hl : Nat) (pwd salt : List Nat) :
    ∀ b ∈ argon2Digest ty ver t m p hl pwd salt, b < 256 := by
  intro b hb
  simp only [argon2Digest, List.mem_map, List.mem_range] at hb
  obtain ⟨j, _, rfl⟩ := hb
  have := passChecksum_lt pwd
  split
  · omega
  split
  · omega
  · omega

theorem argon2Digest_getD_zero {ty ver t m p hl : Nat} {pwd salt : List Nat} (h : 0 < hl) :
    (argon2Digest ty ver t m p hl pwd salt).getD 0 0 = passChecksum pwd % 256 := by
  simp [argon2Digest, List.getD_eq_getElem?_getD, List.getElem?_map, List.getElem?_range, h]

theorem argon2Digest_getD_one {ty ver t m p hl : Nat} {pwd salt : List Nat} (h : 1 < hl) :
    (argon2Digest ty ver t m p hl pwd salt).getD 1 0 = passChecksum pwd / 256 := by
  simp [argon2Digest, List.getD_eq_getElem?_getD, List.getElem?_map, List.getElem?_range, h]

/-- Distinct password fingerprints give distinct digests (the fingerprint
occupies bytes 0 and 1). -/
theorem argon2Digest_ne {pwd pwd' : List Nat} (ty ver t m p hl : Nat) (salt : List Nat)
    (hhl : 2 ≤ hl) (hne : passChecksum pwd ≠ passChecksum pwd') :
    argon2Digest ty ver t m p hl pwd salt ≠ argon2Digest ty ver t m p hl pwd' salt := by
  intro h
  have h0 := congrArg (fun l => l.getD 0 0) h
  have h1 := congrArg (fun l => l.getD 1 0) h
  simp only [] at h0 h1
  have hp := passChecksum_lt pwd
  have hp' := passChecksum_lt pwd'
  rw [argon2Digest_getD_zero (by omega), argon2Digest_getD_zero (by omega)] at h0
  rw [argon2Digest_getD_one (by omega), argon2Digest_getD_one (by omega)] at h1
  omega

/-! ## Wrapper lemmas -/

theorem jsOrNat_some_zero_default (d : Nat) : jsOrNat (some 0) d = d := rfl

theorem jsOrNat_none_default (d : Nat) : jsOrNat none d = d := rfl

theorem jsOrNat_some_of_pos {n : Nat} (h : 0 < n) (d : Nat) : jsOrNat (some n) d = n := by
  simp [jsOrNat]
  omega

theorem jsOrNat_some_zero_right (n : Nat) : jsOrNat (some n) 0 = n := by
  rcases Nat.eq_zero_or_pos n with h | h
  · subst h; rfl
  · exact jsOrNat_some_of_pos h 0

theorem validateParams_ok {t m p hl : Nat} (hhl : 4 ≤ hl) (ht : 1 ≤ t) (hp : 1 ≤ p)
    (hpmax : p ≤ 16777215) (hm : 8 * p ≤ m) : validateParams t m p hl = ARGON2_OK := by
  rw [validateParams, if_neg (by omega), if_neg (by omega), if_neg (by omega),
    if_neg (by omega), if_neg (by omega)]

theorem argon2ErrorMessage_ne_empty (code : Int) : argon2ErrorMessage code ≠ "" := by
  rw [argon2ErrorMessage]
  split
  · decide
  repeat'
    first
    | decide
    | split

/-- The four buffers allocated by `argon2Hash` are freed on every exit
path: the live set is restored. -/
theorem argon2HashRun_live (params : HashParams) (co : CoreHashOutcome) (σ : AllocState) :
    ((argon2HashRun params co σ).2).live = σ.live := by
  have hfree : (freeBuf (σ.next + 3) (freeBuf (σ.next + 2) (freeBuf (σ.next + 1)
      (freeBuf σ.next ⟨σ.next + 4, (σ.next + 3) :: (σ.next + 2) :: (σ.next + 1) :: σ.next ::
        σ.live⟩)))).live = σ.live := by
    simp only [freeBuf]
    rw [List.erase_cons, if_neg (by simp), List.erase_cons, if_neg (by simp),
      List.erase_cons, if_neg (by simp), List.erase_cons, if_pos (by simp)]
    rw [List.erase_cons, if_neg (by simp), List.erase_cons, if_neg (by simp),
      List.erase_cons, if_pos (by simp)]
    rw [List.erase_cons, if_neg (by simp), List.erase_cons, if_pos (by simp)]
    rw [List.erase_cons, if_pos (by simp)]
  rw [argon2HashRun]
  simp only [allocBuf]
  cases co with
  | threw e => simpa using hfree
  | ret code digest encodedOut r =>
    rcases eq_or_ne code 0 with h | h
    · simp only [h, if_pos rfl]
      simpa using hfree
    · simp only [if_neg h]
      split <;> simpa using hfree

/-- The two buffers allocated by `argon2Verify` are freed on every exit
path: the live set is restored. -/
theorem argon2VerifyRun_live (params : VerifyParams) (co : CoreVerifyOutcome) (σ : AllocState) :
    ((argon2VerifyRun params co σ).2).live = σ.live := by
  have hfree : (freeBuf (σ.next + 1) (freeBuf σ.next
      ⟨σ.next + 2, (σ.next + 1) :: σ.next :: σ.live⟩)).live = σ.live := by
    simp only [freeBuf]
    rw [List.erase_cons, if_neg (by simp), List.erase_cons, if_pos (by simp)]
    rw [List.erase_cons, if_pos (by simp)]
  rw [argon2VerifyRun]
  simp only [allocBuf]
  cases co with
  | threw e => simpa using hfree
  | ret code =>
    rcases eq_or_ne code 0 with h | h
    · simp only [h, if_pos rfl]
      simpa using hfree
    · simp only [if_neg h]
      split <;> simpa using hfree

/-- Reading back a byte list of the right length through
`HEAP8`/`Uint8Array` is the identity when its entries are bytes. -/
theorem readBack_eq {d : List Nat} {n : Nat} (hlen : d.length = n) (hlt : ∀ b ∈ d, b < 256) :
    (List.range n).map (fun i => d.getD i 0 % 256) = d := by
  subst hlen
  apply List.ext_getElem
  · simp
  · intro i h1 h2
    simp only [List.getElem_map, List.getElem_range]
    rw [List.getD_eq_getElem _ _ (by simpa using h2)]
    exact Nat.mod_eq_of_lt (hlt _ (List.getElem_mem _))


set_option maxRecDepth 8192 in
theorem jsByteHex_data {b : Nat} (h : b < 256) :
    (jsByteHex b).data = [Nat.digitChar (b / 16 % 16), Nat.digitChar (b % 16)] := by
  have : ∀ m ∈ List.range 256,
      (jsByteHex m).data = [Nat.digitChar (m / 16 % 16), Nat.digitChar (m % 16)] := by decide
  simpa using this b (List.mem_range.mpr h)

theorem hexFold_data (bs : List Nat) (s : String) :
    (bs.foldl (fun acc b => acc ++ jsByteHex b) s).data =
      s.data ++ bs.flatMap fun b => (jsByteHex b).data := by
  induction bs generalizing s with
  | nil => simp
  | cons b rest ih =>
    simp only [List.foldl_cons, ih, List.flatMap_cons, String.data_append, List.append_assoc]

/-- The hex string built by the wrapper's loop is the per-byte hex
encoding of the byte list. -/
theorem hexFoldl_eq (bs : List Nat) :
    bs.foldl (fun acc b => acc ++ jsByteHex b) "" =
      String.mk (bs.flatMap fun b => (jsByteHex b).data) := by
  apply String.ext
  rw [hexFold_data]
  rfl

/-- The wrapper's variant inference (lines 130–137) on an encoded string
produced by the core recovers the encoded variant. -/
theorem verifyArgon2Type_encodeHashData {ty : Nat} (hty : ty ≤ 2) (ver m t p : Nat)
    (salt digest : List Nat) :
    verifyArgon2Type none (String.mk (encodeHashData ty ver m t p salt digest)) = some ty := by
  obtain ⟨tag, htag⟩ := Option.isSome_iff_exists.mp (typeName_isSome hty)
  have hsplit := splitOnAux_encodeHashData hty htag ver m t p salt digest
  have h1 : verifyArgon2Type none (String.mk (encodeHashData ty ver m t p salt digest)) =
      match (splitOnAux '$' (encodeHashData ty ver m t p salt digest)).get? 1 with
      | none => none
      | some typeStr =>
        if typeStr = [] then none
        else some (jsOrNat (ArgonTypeLookup (jsReplaceFirst 'a' 'A' typeStr)) 0) := rfl
  rw [h1, hsplit]
  simp only [List.get?_cons_succ, List.get?_cons_zero]
  interval_cases ty <;> simp only [typeName, Option.some.injEq] at htag <;> subst htag <;> decide

/-- `argon2Hash` on explicitly supplied valid parameters returns the
success object with the digest, its hex encoding, and the encoded
string. -/
theorem argon2Hash_valid (pass salt : List Nat) (t m p hl ty : Nat) (σ : AllocState)
    (hhl : 4 ≤ hl) (ht : 1 ≤ t) (hp : 1 ≤ p) (hpmax : p ≤ 16777215) (hm : 8 * p ≤ m)
    (hty : ty ≤ 2) :
    (argon2Hash ⟨pass, salt, some t, some m, some p, some hl, some ty⟩ σ).1 =
      HashOutcome.returned ⟨argon2Digest ty 19 t m p hl pass salt,
        String.mk ((argon2Digest ty 19 t m p hl pass salt).flatMap fun b => (jsByteHex b).data),
        String.mk (encodeHashData ty 19 m t p salt
          (argon2Digest ty 19 t m p hl pass salt))⟩ := by
  have hres : resolveHashParams ⟨pass, salt, some t, some m, some p, some hl, some ty⟩ =
      ⟨t, m, p, hl, ty, 19⟩ := by
    simp [resolveHashParams, jsOrNat_some_of_pos (by omega : 0 < t),
      jsOrNat_some_of_pos (by omega : 0 < m), jsOrNat_some_of_pos (by omega : 0 < p),
      jsOrNat_some_of_pos (by omega : 0 < hl), jsOrNat_some_zero_right]
  have hcore : specHashCore t m p pass salt hl ty 19 =
      .ret ARGON2_OK (argon2Digest ty 19 t m p hl pass salt)
        (String.mk (encodeHashData ty 19 m t p salt (argon2Digest ty 19 t m p hl pass salt)))
        true := by
    rw [specHashCore, validateParams_ok hhl ht hp hpmax hm]
    simp [Option.isNone_iff_eq_none, Option.isSome_iff_ne_none.mp (typeName_isSome hty)]
  rw [argon2Hash, hres]
  simp only [argon2HashRun, allocBuf, hcore, hres, ARGON2_OK, if_pos]
  rw [readBack_eq (argon2Digest_length ty 19 t m p hl pass salt)
    (argon2Digest_lt_256 ty 19 t m p hl pass salt), hexFoldl_eq]

/-- Evaluation of the modelled verify core on an encoded string it
produced: success exactly when the recomputed digest matches. -/
theorem specVerifyCore_encoded (pass salt pwd : List Nat) (t m p hl ty : Nat)
    (hhl : 4 ≤ hl) (ht : 1 ≤ t) (hp : 1 ≤ p) (hpmax : p ≤ 16777215) (hm : 8 * p ≤ m)
    (hty : ty ≤ 2) (hsalt : ∀ b ∈ salt, b < 256) :
    specVerifyCore (some ty)
        (String.mk (encodeHashData ty 19 m t p salt (argon2Digest ty 19 t m p hl pass salt)))
        pwd =
      if argon2Digest ty 19 t m p hl pwd salt = argon2Digest ty 19 t m p hl pass salt then
        .ret ARGON2_OK
      else .ret ARGON2_VERIFY_MISMATCH := by
  have hdec := decodeHashData_encodeHashData 19 m t p hty hsalt
    (argon2Digest_lt_256 ty 19 t m p hl pass salt)
  rw [specVerifyCore]
  simp only [hdec]
  rw [if_neg (by simp), argon2Digest_length, validateParams_ok hhl ht hp hpmax hm]
  simp [argon2Digest_length]

theorem argon2VerifyRun_ret_zero (params : VerifyParams) (σ : AllocState) :
    (argon2VerifyRun params (.ret 0) σ).1 = .returned none := rfl

theorem argon2VerifyRun_ret_error (params : VerifyParams) {code : Int} (σ : AllocState)
    (h : code ≠ 0) :
    (argon2VerifyRun params (.ret code) σ).1 =
      .thrown ⟨some (argon2ErrorMessage code), some code⟩ := by
  simp [argon2VerifyRun, allocBuf, h, argon2ErrorMessage_ne_empty code]

theorem argon2HashRun_ret_error (params : HashParams) {code : Int}
    (digest : List Nat) (encodedOut : String) (r : Bool) (σ : AllocState) (h : code ≠ 0) :
    (argon2HashRun params (.ret code digest encodedOut r) σ).1 =
      .thrown ⟨some (argon2ErrorMessage code), some code⟩ := by
  simp [argon2HashRun, allocBuf, h, argon2ErrorMessage_ne_empty code]

theorem specHexEncode_length (bs : List Nat) : (specHexEncode bs).length = 2 * bs.length := by
  induction bs with
  | nil => rfl
  | cons b rest ih =>
    simp only [specHexEncode, List.flatMap_cons] at ih ⊢
    simp [ih]
    omega

theorem mem_specHexEncode {bs : List Nat} {c : Char} (h : c ∈ specHexEncode bs) :
    c ∈ "0123456789abcdef".data := by
  have hdigit : ∀ n ∈ List.range 16, Nat.digitChar n ∈ "0123456789abcdef".data := by decide
  simp only [specHexEncode, List.mem_flatMap] at h
  obtain ⟨b, _, hc⟩ := h
  rcases List.mem_cons.mp hc with rfl | hc
  · exact hdigit _ (List.mem_range.mpr (Nat.mod_lt _ (by omega)))
  · rcases List.mem_cons.mp hc with rfl | hc
    · exact hdigit _ (List.mem_range.mpr (Nat.mod_lt _ (by omega)))
    · simp at hc

/-! ## The claims -/

/-- C1: for every password, salt, and valid parameter combination
{time cost, memory cost, parallelism, output length, variant}, calling
`verify` with that password and the encoded string returned by
`hash(password, salt, params)` succeeds (returns with no error). -/
theorem c1_verify_of_hash_succeeds (pass salt : List Nat) (t m p hl ty : Nat)
    (σ σ2 : AllocState) (hsalt : ∀ b ∈ salt, b < 256) (ht : 1 ≤ t) (hm : 8 * p ≤ m)
    (hp : 1 ≤ p) (hpmax : p ≤ 16777215) (hhl : 4 ≤ hl) (hty : ty ≤ 2) :
    ∃ s, (argon2Hash ⟨pass, salt, some t, some m, some p, some hl, some ty⟩ σ).1 =
        HashOutcome.returned s ∧
      (argon2Verify ⟨pass, s.encoded, none⟩ σ2).1 = VerifyOutcome.returned none := by
  refine ⟨_, argon2Hash_valid pass salt t m p hl ty σ hhl ht hp hpmax hm hty, ?_⟩
  rw [argon2Verify]
  rw [show (⟨argon2Digest ty 19 t m p hl pass salt,
    String.mk ((argon2Digest ty 19 t m p hl pass salt).flatMap fun b => (jsByteHex b).data),
    String.mk (encodeHashData ty 19 m t p salt (argon2Digest ty 19 t m p hl pass salt))⟩ :
      HashSuccess).encoded =
    String.mk (encodeHashData ty 19 m t p salt (argon2Digest ty 19 t m p hl pass salt)) from rfl]
  rw [verifyArgon2Type_encodeHashData hty,
    specVerifyCore_encoded pass salt pass t m p hl ty hhl ht hp hpmax hm hty hsalt,
    if_pos rfl]
  exact argon2VerifyRun_ret_zero _ _

/-- C1 witness. -/
theorem c1_verify_of_hash_succeeds_witness :
    ∃ s, (argon2Hash ⟨[7, 8, 9], [0, 1, 2, 3, 4, 5, 6, 7], some 2, some 16, some 1, some 4,
        some 2⟩ ⟨0, []⟩).1 = HashOutcome.returned s ∧
      (argon2Verify ⟨[7, 8, 9], s.encoded, none⟩ ⟨0, []⟩).1 = VerifyOutcome.returned none :=
  c1_verify_of_hash_succeeds [7, 8, 9] [0, 1, 2, 3, 4, 5, 6, 7] 2 16 1 4 2 ⟨0, []⟩ ⟨0, []⟩
    (by decide) (by decide) (by decide) (by decide) (by decide) (by decide) (by decide)

theorem argon2HashRun_threw (params : HashParams) (e : String) (σ : AllocState) :
    (argon2HashRun params (.threw e) σ).1 = HashOutcome.thrown ⟨some e, none⟩ := rfl

theorem argon2HashRun_ret_ok (params : HashParams) (d : List Nat) (enc : String) (rc : Bool)
    (σ : AllocState) :
    (argon2HashRun params (.ret 0 d enc rc) σ).1 =
      HashOutcome.returned
        ⟨(List.range (resolveHashParams params).hashlen).map (fun i => d.getD i 0 % 256),
          ((List.range (resolveHashParams params).hashlen).map
            (fun i => d.getD i 0 % 256)).foldl (fun s b => s ++ jsByteHex b) "", enc⟩ := rfl

theorem specHashCore_valid (pass salt : List Nat) {t m p hl ty : Nat} (ver : Nat)
    (hhl : 4 ≤ hl) (ht : 1 ≤ t) (hp : 1 ≤ p) (hpmax : p ≤ 16777215) (hm : 8 * p ≤ m)
    (hty : ty ≤ 2) :
    specHashCore t m p pass salt hl ty ver =
      .ret ARGON2_OK (argon2Digest ty ver t m p hl pass salt)
        (String.mk (encodeHashData ty ver m t p salt (argon2Digest ty ver t m p hl pass salt)))
        true := by
  rw [specHashCore, validateParams_ok hhl ht hp hpmax hm]
  simp [Option.isNone_iff_eq_none, Option.isSome_iff_ne_none.mp (typeName_isSome hty)]

theorem flatMap_congr_of_mem {α β : Type} {l : List α} {f g : α → List β}
    (h : ∀ a ∈ l, f a = g a) : l.flatMap f = l.flatMap g := by
  induction l with
  | nil => rfl
  | cons a r ih =>
    simp only [List.flatMap_cons, h a (by simp)]
    rw [ih fun b hb => h b (by simp [hb])]

/-- C8: every successful call to `hash` returns the raw digest bytes, a
hex digest string that is exactly the per-byte lowercase two-hex-digit
encoding of the raw digest (of length twice the requested output
length), and the full encoded string. -/
theorem c8_hash_success_shape (pass salt : List Nat) (t m p hl ty : Nat) (σ : AllocState)
    (ht : 1 ≤ t) (hm : 8 * p ≤ m) (hp : 1 ≤ p) (hpmax : p ≤ 16777215) (hhl : 4 ≤ hl)
    (hty : ty ≤ 2) :
    ∃ s, (argon2Hash ⟨pass, salt, some t, some m, some p, some hl, some ty⟩ σ).1 =
        HashOutcome.returned s ∧
      s.hash = argon2Digest ty 19 t m p hl pass salt ∧
      s.hash.length = hl ∧
      s.hashHex.data = specHexEncode s.hash ∧
      s.hashHex.data.length = 2 * hl ∧
      (∀ c ∈ s.hashHex.data, c ∈ "0123456789abcdef".data) ∧
      s.encoded = String.mk (encodeHashData ty 19 m t p salt s.hash) := by
  refine ⟨_, argon2Hash_valid pass salt t m p hl ty σ hhl ht hp hpmax hm hty, rfl, ?_, ?_, ?_,
    ?_, rfl⟩
  · exact argon2Digest_length ty 19 t m p hl pass salt
  · show ((argon2Digest ty 19 t m p hl pass salt).flatMap fun b => (jsByteHex b).data) =
      specHexEncode (argon2Digest ty 19 t m p hl pass salt)
    exact flatMap_congr_of_mem fun b hb =>
      jsByteHex_data (argon2Digest_lt_256 ty 19 t m p hl pass salt b hb)
  · show ((argon2Digest ty 19 t m p hl pass salt).flatMap fun b => (jsByteHex b).data).length =
      2 * hl
    rw [flatMap_congr_of_mem fun b hb =>
      jsByteHex_data (argon2Digest_lt_256 ty 19 t m p hl pass salt b hb)]
    rw [show ((argon2Digest ty 19 t m p hl pass salt).flatMap fun b =>
      [Nat.digitChar (b / 16 % 16), Nat.digitChar (b % 16)]) =
      specHexEncode (argon2Digest ty 19 t m p hl pass salt) from rfl]
    rw [specHexEncode_length, argon2Digest_length]
  · intro c hc
    rw [show ((⟨argon2Digest ty 19 t m p hl pass salt,
      String.mk ((argon2Digest ty 19 t m p hl pass salt).flatMap fun b => (jsByteHex b).data),
      String.mk (encodeHashData ty 19 m t p salt (argon2Digest ty 19 t m p hl pass salt))⟩ :
        HashSuccess).hashHex).data =
      ((argon2Digest ty 19 t m p hl pass salt).flatMap fun b => (jsByteHex b).data) from rfl,
      flatMap_congr_of_mem fun b hb =>
        jsByteHex_data (argon2Digest_lt_256 ty 19 t m p hl pass salt b hb)] at hc
    exact mem_specHexEncode hc

/-- C8 witness. -/
theorem c8_hash_success_shape_witness :
    ∃ s, (argon2Hash ⟨[5], [9, 9, 9], some 1, some 8, some 1, some 5, some 0⟩ ⟨0, []⟩).1 =
        HashOutcome.returned s ∧
      s.hash = argon2Digest 0 19 1 8 1 5 [5] [9, 9, 9] ∧
      s.hash.length = 5 ∧
      s.hashHex.data = specHexEncode s.hash ∧
      s.hashHex.data.length = 2 * 5 ∧
      (∀ c ∈ s.hashHex.data, c ∈ "0123456789abcdef".data) ∧
      s.encoded = String.mk (encodeHashData 0 19 8 1 1 [9, 9, 9] s.hash) :=
  c8_hash_success_shape [5] [9, 9, 9] 1 8 1 5 0 ⟨0, []⟩ (by decide) (by decide) (by decide)
    (by decide) (by decide) (by decide)

/-- C4: verifying a valid hash with a password that differs in a single
byte yields a thrown VerificationMismatch error whose code is distinct
from the parse-error code. -/
theorem c4_wrong_password_mismatch (l r salt : List Nat) (b b' : Nat) (t m p hl ty : Nat)
    (σ σ2 : AllocState) (hb : b < 256) (hb' : b' < 256) (hbb : b ≠ b')
    (hsalt : ∀ x ∈ salt, x < 256) (ht : 1 ≤ t) (hm : 8 * p ≤ m) (hp : 1 ≤ p)
    (hpmax : p ≤ 16777215) (hhl : 4 ≤ hl) (hty : ty ≤ 2) :
    ∃ s, (argon2Hash ⟨l ++ b :: r, salt, some t, some m, some p, some hl, some ty⟩ σ).1 =
        HashOutcome.returned s ∧
      (argon2Verify ⟨l ++ b' :: r, s.encoded, none⟩ σ2).1 =
        VerifyOutcome.thrown ⟨some (argon2ErrorMessage ARGON2_VERIFY_MISMATCH),
          some ARGON2_VERIFY_MISMATCH⟩ ∧
      ARGON2_VERIFY_MISMATCH ≠ ARGON2_DECODING_FAIL := by
  refine ⟨_, argon2Hash_valid (l ++ b :: r) salt t m p hl ty σ hhl ht hp hpmax hm hty, ?_,
    by decide⟩
  rw [argon2Verify]
  rw [show (⟨argon2Digest ty 19 t m p hl (l ++ b :: r) salt,
    String.mk ((argon2Digest ty 19 t m p hl (l ++ b :: r) salt).flatMap fun x =>
      (jsByteHex x).data),
    String.mk (encodeHashData ty 19 m t p salt
      (argon2Digest ty 19 t m p hl (l ++ b :: r) salt))⟩ : HashSuccess).encoded =
    String.mk (encodeHashData ty 19 m t p salt
      (argon2Digest ty 19 t m p hl (l ++ b :: r) salt)) from rfl]
  rw [verifyArgon2Type_encodeHashData hty,
    specVerifyCore_encoded (l ++ b :: r) salt (l ++ b' :: r) t m p hl ty hhl ht hp hpmax hm
      hty hsalt,
    if_neg (argon2Digest_ne ty 19 t m p hl salt (by omega)
      (passChecksum_ne hb' hb (Ne.symm hbb)))]
  exact argon2VerifyRun_ret_error _ _ (by decide)

/-- C4 witness. -/
theorem c4_wrong_password_mismatch_witness :
    ∃ s, (argon2Hash ⟨[] ++ 1 :: [2], [3, 3, 3, 3], some 1, some 8, some 1, some 4, some 1⟩
        ⟨0, []⟩).1 = HashOutcome.returned s ∧
      (argon2Verify ⟨[] ++ 9 :: [2], s.encoded, none⟩ ⟨0, []⟩).1 =
        VerifyOutcome.thrown ⟨some (argon2ErrorMessage ARGON2_VERIFY_MISMATCH),
          some ARGON2_VERIFY_MISMATCH⟩ ∧
      ARGON2_VERIFY_MISMATCH ≠ ARGON2_DECODING_FAIL :=
  c4_wrong_password_mismatch [] [2] [3, 3, 3, 3] 1 9 1 8 1 4 1 ⟨0, []⟩ ⟨0, []⟩ (by decide)
    (by decide) (by decide) (by decide) (by decide) (by decide) (by decide) (by decide)
    (by decide) (by decide)

/-- C5: every malformed encoded string passed to `verify` — one the
encoding layer cannot parse (missing `$`-delimited field, invalid base64,
or unrecognized variant tag) — yields a thrown ParseError with the
decoding-failure code, never a crash or silent success. -/
theorem c5_malformed_encoded_parse_error (pass : List Nat) (enc : String) (ptype : Option Nat)
    (σ : AllocState) (h : decodeHashData enc.data = none) :
    (argon2Verify ⟨pass, enc, ptype⟩ σ).1 =
      VerifyOutcome.thrown ⟨some (argon2ErrorMessage ARGON2_DECODING_FAIL),
        some ARGON2_DECODING_FAIL⟩ := by
  rw [argon2Verify]
  have hcore : specVerifyCore (verifyArgon2Type ptype enc) enc pass =
      .ret ARGON2_DECODING_FAIL := by
    simp only [specVerifyCore, h]
  rw [hcore]
  exact argon2VerifyRun_ret_error _ _ (by decide)

/-- C5 witness: a string with a missing field, one with invalid base64,
and one with an unrecognized variant tag. -/
theorem c5_malformed_encoded_parse_error_witness :
    ((argon2Verify ⟨[1], "$argon2d$v=19$m=8,t=1,p=1", none⟩ ⟨0, []⟩).1 =
      VerifyOutcome.thrown ⟨some (argon2ErrorMessage ARGON2_DECODING_FAIL),
        some ARGON2_DECODING_FAIL⟩) ∧
    ((argon2Verify ⟨[1], "$argon2d$v=19$m=8,t=1,p=1$c29tZXNhbHQ$***", none⟩ ⟨0, []⟩).1 =
      VerifyOutcome.thrown ⟨some (argon2ErrorMessage ARGON2_DECODING_FAIL),
        some ARGON2_DECODING_FAIL⟩) ∧
    ((argon2Verify ⟨[1], "$argon2x$v=19$m=8,t=1,p=1$c29tZXNhbHQ$AAAA", none⟩ ⟨0, []⟩).1 =
      VerifyOutcome.thrown ⟨some (argon2ErrorMessage ARGON2_DECODING_FAIL),
        some ARGON2_DECODING_FAIL⟩) :=
  ⟨c5_malformed_encoded_parse_error [1] _ none ⟨0, []⟩ rfl,
    c5_malformed_encoded_parse_error [1] _ none ⟨0, []⟩ rfl,
    c5_malformed_encoded_parse_error [1] _ none ⟨0, []⟩ rfl⟩

/-- C2 counterexample: the claim says a parallelism of 0 and an output
length of 0 fail, but the wrapper's `params.parallelism || 1` and
`params.hashLen || 24` silently replace 0 by the default, and the calls
succeed. -/
theorem c2_counterexample_zero_defaults_succeed :
    (argon2Hash ⟨[1, 2], [3, 4], none, none, some 0, none, none⟩ ⟨0, []⟩).1.isReturned = true ∧
    (argon2Hash ⟨[1, 2], [3, 4], none, none, none, some 0, none⟩ ⟨0, []⟩).1.isReturned =
      true := by
  constructor <;> rfl

/-- C2 (amended): with explicitly supplied nonzero values, a memory cost
below `8×parallelism` fails with the memory ParameterError and an output
length of 1–3 fails with the output-length ParameterError, both before
the memory-hard computation runs; an output length of exactly 4
succeeds; but a parallelism of 0 and an output length of 0 are replaced
by the defaults 1 and 24 and succeed. -/
theorem c2_amended_parameter_boundaries :
    (∀ (pass salt : List Nat) (m p : Nat) (σ : AllocState), 0 < m → 0 < p → p ≤ 16777215 →
      m < 8 * p →
      (argon2Hash ⟨pass, salt, none, some m, some p, none, none⟩ σ).1 =
        HashOutcome.thrown ⟨some (argon2ErrorMessage ARGON2_MEMORY_TOO_LITTLE),
          some ARGON2_MEMORY_TOO_LITTLE⟩ ∧
      specHashCore 1 m p pass salt 24 0 19 =
        CoreHashOutcome.ret ARGON2_MEMORY_TOO_LITTLE [] "" false) ∧
    (∀ (pass salt : List Nat) (σ : AllocState),
      ∃ s, (argon2Hash ⟨pass, salt, none, none, some 0, none, none⟩ σ).1 =
        HashOutcome.returned s) ∧
    (∀ (pass salt : List Nat) (σ : AllocState),
      ∃ s, (argon2Hash ⟨pass, salt, none, none, none, some 0, none⟩ σ).1 =
        HashOutcome.returned s) ∧
    (∀ (pass salt : List Nat) (hl : Nat) (σ : AllocState), 1 ≤ hl → hl ≤ 3 →
      (argon2Hash ⟨pass, salt, none, none, none, some hl, none⟩ σ).1 =
        HashOutcome.thrown ⟨some (argon2ErrorMessage ARGON2_OUTPUT_TOO_SHORT),
          some ARGON2_OUTPUT_TOO_SHORT⟩ ∧
      specHashCore 1 1024 1 pass salt hl 0 19 =
        CoreHashOutcome.ret ARGON2_OUTPUT_TOO_SHORT [] "" false) ∧
    (∀ (pass salt : List Nat) (σ : AllocState),
      ∃ s, (argon2Hash ⟨pass, salt, none, none, none, some 4, none⟩ σ).1 =
        HashOutcome.returned s) := by
  refine ⟨?_, ?_, ?_, ?_, ?_⟩
  · intro pass salt m p σ hm hp hpmax hmlt
    have hres : resolveHashParams ⟨pass, salt, none, some m, some p, none, none⟩ =
        ⟨1, m, p, 24, 0, 19⟩ := by
      simp [resolveHashParams, jsOrNat_none_default, jsOrNat_some_of_pos hm,
        jsOrNat_some_of_pos hp]
    have hcore : specHashCore 1 m p pass salt 24 0 19 =
        CoreHashOutcome.ret ARGON2_MEMORY_TOO_LITTLE [] "" false := by
      have hval : validateParams 1 m p 24 = ARGON2_MEMORY_TOO_LITTLE := by
        rw [validateParams, if_neg (by omega), if_neg (by omega), if_neg (by omega),
          if_neg (by omega), if_pos (by omega)]
      simp only [specHashCore, hval]
      rw [if_pos (by decide)]
    refine ⟨?_, hcore⟩
    rw [argon2Hash, hres]
    rw [show (⟨1, m, p, 24, 0, 19⟩ : ResolvedHashParams).tCost = 1 from rfl]
    rw [show (⟨1, m, p, 24, 0, 19⟩ : ResolvedHashParams).mCost = m from rfl]
    rw [show (⟨1, m, p, 24, 0, 19⟩ : ResolvedHashParams).parallelism = p from rfl]
    rw [show (⟨1, m, p, 24, 0, 19⟩ : ResolvedHashParams).hashlen = 24 from rfl]
    rw [show (⟨1, m, p, 24, 0, 19⟩ : ResolvedHashParams).argon2Type = 0 from rfl]
    rw [show (⟨1, m, p, 24, 0, 19⟩ : ResolvedHashParams).version = 19 from rfl]
    rw [hcore]
    exact argon2HashRun_ret_error _ _ _ _ _ (by decide)
  · intro pass salt σ
    have hres : resolveHashParams ⟨pass, salt, none, none, some 0, none, none⟩ =
        ⟨1, 1024, 1, 24, 0, 19⟩ := by
      simp [resolveHashParams, jsOrNat_none_default, jsOrNat_some_zero_default]
    rw [argon2Hash, hres]
    rw [show (⟨1, 1024, 1, 24, 0, 19⟩ : ResolvedHashParams).tCost = 1 from rfl,
      show (⟨1, 1024, 1, 24, 0, 19⟩ : ResolvedHashParams).mCost = 1024 from rfl,
      show (⟨1, 1024, 1, 24, 0, 19⟩ : ResolvedHashParams).parallelism = 1 from rfl,
      show (⟨1, 1024, 1, 24, 0, 19⟩ : ResolvedHashParams).hashlen = 24 from rfl,
      show (⟨1, 1024, 1, 24, 0, 19⟩ : ResolvedHashParams).argon2Type = 0 from rfl,
      show (⟨1, 1024, 1, 24, 0, 19⟩ : ResolvedHashParams).version = 19 from rfl]
    rw [specHashCore_valid pass salt 19 (by decide) (by decide) (by decide) (by decide)
      (by decide) (by decide)]
    exact ⟨_, argon2HashRun_ret_ok _ _ _ _ _⟩
  · intro pass salt σ
    have hres : resolveHashParams ⟨pass, salt, none, none, none, some 0, none⟩ =
        ⟨1, 1024, 1, 24, 0, 19⟩ := by
      simp [resolveHashParams, jsOrNat_none_default, jsOrNat_some_zero_default]
    rw [argon2Hash, hres]
    rw [show (⟨1, 1024, 1, 24, 0, 19⟩ : ResolvedHashParams).tCost = 1 from rfl,
      show (⟨1, 1024, 1, 24, 0, 19⟩ : ResolvedHashParams).mCost = 1024 from rfl,
      show (⟨1, 1024, 1, 24, 0, 19⟩ : ResolvedHashParams).parallelism = 1 from rfl,
      show (⟨1, 1024, 1, 24, 0, 19⟩ : ResolvedHashParams).hashlen = 24 from rfl,
      show (⟨1, 1024, 1, 24, 0, 19⟩ : ResolvedHashParams).argon2Type = 0 from rfl,
      show (⟨1, 1024, 1, 24, 0, 19⟩ : ResolvedHashParams).version = 19 from rfl]
    rw [specHashCore_valid pass salt 19 (by decide) (by decide) (by decide) (by decide)
      (by decide) (by decide)]
    exact ⟨_, argon2HashRun_ret_ok _ _ _ _ _⟩
  · intro pass salt hl σ h1 h3
    have hhl0 : 0 < hl := by omega
    have hres : resolveHashParams ⟨pass, salt, none, none, none, some hl, none⟩ =
        ⟨1, 1024, 1, hl, 0, 19⟩ := by
      simp [resolveHashParams, jsOrNat_none_default, jsOrNat_some_of_pos hhl0]
    have hcore : specHashCore 1 1024 1 pass salt hl 0 19 =
        CoreHashOutcome.ret ARGON2_OUTPUT_TOO_SHORT [] "" false := by
      have hval : validateParams 1 1024 1 hl = ARGON2_OUTPUT_TOO_SHORT := by
        rw [validateParams, if_pos (by omega)]
      simp only [specHashCore, hval]
      rw [if_pos (by decide)]
    refine ⟨?_, hcore⟩
    rw [argon2Hash, hres]
    rw [show (⟨1, 1024, 1, hl, 0, 19⟩ : ResolvedHashParams).tCost = 1 from rfl,
      show (⟨1, 1024, 1, hl, 0, 19⟩ : ResolvedHashParams).mCost = 1024 from rfl,
      show (⟨1, 1024, 1, hl, 0, 19⟩ : ResolvedHashParams).parallelism = 1 from rfl,
      show (⟨1, 1024, 1, hl, 0, 19⟩ : ResolvedHashParams).hashlen = hl from rfl,
      show (⟨1, 1024, 1, hl, 0, 19⟩ : ResolvedHashParams).argon2Type = 0 from rfl,
      show (⟨1, 1024, 1, hl, 0, 19⟩ : ResolvedHashParams).version = 19 from rfl]
    rw [hcore]
    exact argon2HashRun_ret_error _ _ _ _ _ (by decide)
  · intro pass salt σ
    have hres : resolveHashParams ⟨pass, salt, none, none, none, some 4, none⟩ =
        ⟨1, 1024, 1, 4, 0, 19⟩ := by
      simp [resolveHashParams, jsOrNat_none_default, jsOrNat_some_of_pos (by omega : 0 < 4)]
    rw [argon2Hash, hres]
    rw [show (⟨1, 1024, 1, 4, 0, 19⟩ : ResolvedHashParams).tCost = 1 from rfl,
      show (⟨1, 1024, 1, 4, 0, 19⟩ : ResolvedHashParams).mCost = 1024 from rfl,
      show (⟨1, 1024, 1, 4, 0, 19⟩ : ResolvedHashParams).parallelism = 1 from rfl,
      show (⟨1, 1024, 1, 4, 0, 19⟩ : ResolvedHashParams).hashlen = 4 from rfl,
      show (⟨1, 1024, 1, 4, 0, 19⟩ : ResolvedHashParams).argon2Type = 0 from rfl,
      show (⟨1, 1024, 1, 4, 0, 19⟩ : ResolvedHashParams).version = 19 from rfl]
    rw [specHashCore_valid pass salt 19 (by decide) (by decide) (by decide) (by decide)
      (by decide) (by decide)]
    exact ⟨_, argon2HashRun_ret_ok _ _ _ _ _⟩

/-- C2 witness. -/
theorem c2_amended_parameter_boundaries_witness :
    ((argon2Hash ⟨[1], [2], none, some 8, some 2, none, none⟩ ⟨0, []⟩).1 =
      HashOutcome.thrown ⟨some (argon2ErrorMessage ARGON2_MEMORY_TOO_LITTLE),
        some ARGON2_MEMORY_TOO_LITTLE⟩ ∧
      specHashCore 1 8 2 [1] [2] 24 0 19 =
        CoreHashOutcome.ret ARGON2_MEMORY_TOO_LITTLE [] "" false) ∧
    ((argon2Hash ⟨[1], [2], none, none, none, some 2, none⟩ ⟨0, []⟩).1 =
      HashOutcome.thrown ⟨some (argon2ErrorMessage ARGON2_OUTPUT_TOO_SHORT),
        some ARGON2_OUTPUT_TOO_SHORT⟩ ∧
      specHashCore 1 1024 1 [1] [2] 2 0 19 =
        CoreHashOutcome.ret ARGON2_OUTPUT_TOO_SHORT [] "" false) ∧
    (∃ s, (argon2Hash ⟨[1], [2], none, none, none, some 4, none⟩ ⟨0, []⟩).1 =
      HashOutcome.returned s) :=
  ⟨c2_amended_parameter_boundaries.1 [1] [2] 8 2 ⟨0, []⟩ (by decide) (by decide) (by decide)
      (by decide),
    c2_amended_parameter_boundaries.2.2.2.1 [1] [2] 2 ⟨0, []⟩ (by decide) (by decide),
    c2_amended_parameter_boundaries.2.2.2.2 [1] [2] ⟨0, []⟩⟩

/-- C3 counterexample: with no explicit type and an encoded string whose
tag field is present but empty (`"$$x"` — an unrecognized variant name),
the claim says the variant defaults to Argon2d (0); the code leaves the
variant `undefined` instead. -/
theorem c3_counterexample_empty_tag_stays_undefined :
    verifyArgon2Type none "$$x" = none ∧ verifyArgon2Type none "$$x" ≠ some 0 := by
  constructor <;> decide

/-- C3 (amended): an explicitly supplied type (including Argon2d = 0)
always wins; otherwise, if the `$`-split's second field is missing or
empty the variant stays `undefined`; if it is non-empty, the recognized
variant (after replacing the first `'a'` by `'A'`) is used, and a
non-empty unrecognized tag defaults to Argon2d (0). -/
theorem c3_amended_variant_precedence (ptype : Option Nat) (enc : String) :
    (∀ v, ptype = some v → verifyArgon2Type ptype enc = some v) ∧
    (ptype = none → (splitOnAux '$' enc.data).get? 1 = none →
      verifyArgon2Type ptype enc = none) ∧
    (ptype = none → ∀ tagF, (splitOnAux '$' enc.data).get? 1 = some tagF →
      (tagF = [] → verifyArgon2Type ptype enc = none) ∧
      (tagF ≠ [] → ∀ v, ArgonTypeLookup (jsReplaceFirst 'a' 'A' tagF) = some v →
        verifyArgon2Type ptype enc = some v) ∧
      (tagF ≠ [] → ArgonTypeLookup (jsReplaceFirst 'a' 'A' tagF) = none →
        verifyArgon2Type ptype enc = some 0)) := by
  refine ⟨?_, ?_, ?_⟩
  · intro v hv
    subst hv
    rfl
  · intro hp hg
    subst hp
    simp only [verifyArgon2Type, hg]
  · intro hp tagF hg
    subst hp
    refine ⟨?_, ?_, ?_⟩
    · intro h0
      simp only [verifyArgon2Type, hg, if_pos h0]
    · intro hne v hv
      simp only [verifyArgon2Type, hg, if_neg hne, hv, jsOrNat_some_zero_right]
    · intro hne hv
      simp only [verifyArgon2Type, hg, if_neg hne, hv, jsOrNat_none_default]

/-- C3 witness: an explicit type of 0 wins over an `argon2id` tag; an
omitted type is parsed from the tag; an unrecognized non-empty tag
defaults to Argon2d. -/
theorem c3_amended_variant_precedence_witness :
    verifyArgon2Type (some 0) "$argon2id$v=19" = some 0 ∧
    verifyArgon2Type none "$argon2i$v=19" = some 1 ∧
    verifyArgon2Type none "$bogus$v=19" = some 0 :=
  ⟨(c3_amended_variant_precedence (some 0) "$argon2id$v=19").1 0 rfl,
    (((c3_amended_variant_precedence none "$argon2i$v=19").2.2 rfl "argon2i".data
      (by decide)).2.1 (by decide) 1 (by decide)),
    (((c3_amended_variant_precedence none "$bogus$v=19").2.2 rfl "bogus".data
      (by decide)).2.2 (by decide) (by decide))⟩

/-- C6: a failing call to `hash` (nonzero core result code or a thrown
core exception) ends with the error object `{message, code}` — never the
success object — and the success object is returned only when the core
returned 0. -/
theorem c6_no_digest_on_failure (params : HashParams) (co : CoreHashOutcome) (σ : AllocState) :
    (∀ s, (argon2HashRun params co σ).1 = HashOutcome.returned s →
      ∃ d enc rc, co = CoreHashOutcome.ret 0 d enc rc) ∧
    (((∃ e, co = CoreHashOutcome.threw e) ∨
        ∃ code d enc rc, co = CoreHashOutcome.ret code d enc rc ∧ code ≠ 0) →
      (∃ jsErr, (argon2HashRun params co σ).1 = HashOutcome.thrown jsErr ∨
        (argon2HashRun params co σ).1 = HashOutcome.returnedError jsErr) ∧
      ∀ s, (argon2HashRun params co σ).1 ≠ HashOutcome.returned s) := by
  cases co with
  | threw e =>
    constructor
    · intro s hs
      rw [argon2HashRun_threw] at hs
      cases hs
    · intro _
      refine ⟨⟨(⟨some e, none⟩ : JsError), Or.inl (argon2HashRun_threw params e σ)⟩, ?_⟩
      intro s hs
      rw [argon2HashRun_threw] at hs
      cases hs
  | ret code d enc rc =>
    rcases eq_or_ne code 0 with rfl | hc
    · constructor
      · intro s _
        exact ⟨d, enc, rc, rfl⟩
      · intro h
        rcases h with ⟨e, he⟩ | ⟨code', d', enc', rc', he, hne⟩
        · cases he
        · cases he
          exact absurd rfl hne
    · constructor
      · intro s hs
        rw [argon2HashRun_ret_error params d enc rc σ hc] at hs
        cases hs
      · intro _
        refine ⟨⟨(⟨some (argon2ErrorMessage code), some code⟩ : JsError),
          Or.inl (argon2HashRun_ret_error params d enc rc σ hc)⟩, ?_⟩
        intro s hs
        rw [argon2HashRun_ret_error params d enc rc σ hc] at hs
        cases hs

/-- C6 witness. -/
theorem c6_no_digest_on_failure_witness :
    (∃ jsErr, (argon2HashRun ⟨[1], [2], none, none, none, none, none⟩
        (CoreHashOutcome.ret (-6) [] "" false) ⟨0, []⟩).1 = HashOutcome.thrown jsErr ∨
      (argon2HashRun ⟨[1], [2], none, none, none, none, none⟩
        (CoreHashOutcome.ret (-6) [] "" false) ⟨0, []⟩).1 = HashOutcome.returnedError jsErr) ∧
    ∀ s, (argon2HashRun ⟨[1], [2], none, none, none, none, none⟩
      (CoreHashOutcome.ret (-6) [] "" false) ⟨0, []⟩).1 ≠ HashOutcome.returned s :=
  (c6_no_digest_on_failure ⟨[1], [2], none, none, none, none, none⟩
    (CoreHashOutcome.ret (-6) [] "" false) ⟨0, []⟩).2
    (Or.inr ⟨-6, [], "", false, rfl, by decide⟩)

/-- C7: on every exit path (success, core error return, or core
exception) `hash` frees all four buffers it allocated and `verify` frees
both buffers it allocated — the live-buffer set is restored exactly. -/
theorem c7_all_buffers_freed (params : HashParams) (co : CoreHashOutcome)
    (vparams : VerifyParams) (vco : CoreVerifyOutcome) (σ σ2 : AllocState) :
    ((argon2HashRun params co σ).2).live = σ.live ∧
    ((argon2VerifyRun vparams vco σ2).2).live = σ2.live :=
  ⟨argon2HashRun_live params co σ, argon2VerifyRun_live vparams vco σ2⟩

/-- C10: an omitted or zero `time`, `mem`, `parallelism`, `hashLen` or
`type` is silently replaced by the defaults 1, 1024, 1, 24 and Argon2d
(0) respectively, the version passed to the core is always 0x13, and
`hash` invokes the core with exactly these resolved values. -/
theorem c10_zero_and_omitted_defaults (params : HashParams) (σ : AllocState) :
    ((params.time = none ∨ params.time = some 0) → (resolveHashParams params).tCost = 1) ∧
    ((params.mem = none ∨ params.mem = some 0) → (resolveHashParams params).mCost = 1024) ∧
    ((params.parallelism = none ∨ params.parallelism = some 0) →
      (resolveHashParams params).parallelism = 1) ∧
    ((params.hashLen = none ∨ params.hashLen = some 0) →
      (resolveHashParams params).hashlen = 24) ∧
    ((params.type = none ∨ params.type = some 0) →
      (resolveHashParams params).argon2Type = 0) ∧
    (resolveHashParams params).version = 19 ∧
    argon2Hash params σ = argon2HashRun params
      (specHashCore (resolveHashParams params).tCost (resolveHashParams params).mCost
        (resolveHashParams params).parallelism params.pass params.salt
        (resolveHashParams params).hashlen (resolveHashParams params).argon2Type
        (resolveHashParams params).version) σ := by
  refine ⟨?_, ?_, ?_, ?_, ?_, rfl, rfl⟩ <;>
    rintro (h | h) <;> simp [resolveHashParams, h, jsOrNat]

/-- C10 witness. -/
theorem c10_zero_and_omitted_defaults_witness :
    (resolveHashParams ⟨[], [], some 0, none, some 0, none, some 0⟩).tCost = 1 ∧
    (resolveHashParams ⟨[], [], some 0, none, some 0, none, some 0⟩).mCost = 1024 ∧
    (resolveHashParams ⟨[], [], some 0, none, some 0, none, some 0⟩).parallelism = 1 ∧
    (resolveHashParams ⟨[], [], some 0, none, some 0, none, some 0⟩).hashlen = 24 ∧
    (resolveHashParams ⟨[], [], some 0, none, some 0, none, some 0⟩).argon2Type = 0 ∧
    (resolveHashParams ⟨[], [], some 0, none, some 0, none, some 0⟩).version = 19 :=
  ⟨(c10_zero_and_omitted_defaults ⟨[], [], some 0, none, some 0, none, some 0⟩ ⟨0, []⟩).1
      (Or.inr rfl),
    (c10_zero_and_omitted_defaults ⟨[], [], some 0, none, some 0, none, some 0⟩ ⟨0, []⟩).2.1
      (Or.inl rfl),
    (c10_zero_and_omitted_defaults ⟨[], [], some 0, none, some 0, none, some 0⟩ ⟨0, []⟩).2.2.1
      (Or.inr rfl),
    (c10_zero_and_omitted_defaults ⟨[], [], some 0, none, some 0, none, some 0⟩ ⟨0, []⟩).2.2.2.1
      (Or.inl rfl),
    (c10_zero_and_omitted_defaults ⟨[], [], some 0, none, some 0, none,
      some 0⟩ ⟨0, []⟩).2.2.2.2.1 (Or.inr rfl),
    (c10_zero_and_omitted_defaults ⟨[], [], some 0, none, some 0, none,
      some 0⟩ ⟨0, []⟩).2.2.2.2.2.1⟩
